import Mathlib

/-!
# Verification of the new-rawr comment-tree assembler and paginated listings

Shallow embedding of the parts of `wherkamp/new-rawr` relevant to the tree
assembler (`src/structures/comment_list.rs`), threaded nodes
(`src/structures/comment.rs`) and the paginated user listing
(`src/structures/user.rs`).

Modelling conventions:
* Rust `HashMap` values are modelled as association lists used purely through
  lookup / insert / remove, matching the map interface the source uses.
* Rust panics (`unwrap`, `expect`, `unreachable!`, out-of-range indexing) are
  modelled as an explicit failure outcome (`Option.none`, or a `panicked`
  constructor that carries the state of the receiver at the moment of the
  panic, since all mutations performed before the panic are real).
* The network is a pure oracle function passed as a parameter; `async` in the
  source is a sequential suspension point and is modelled as a plain call.
* Unbounded recursion in iterator `next` methods is totalised by a fuel
  parameter; running out of fuel is a distinct outcome (`fuelOut`), never
  conflated with a returned value or a panic.
-/

namespace NewRawr

/-- Association-list model of `HashMap::get`: value of the first entry with the
given key. -/
def mapLookup {β : Type} (m : List (String × β)) (k : String) : Option β :=
  match m with
  | [] => none
  | (k', v) :: rest => if k' = k then some v else mapLookup rest k

/-- Association-list model of `HashMap::insert` (replacing any previous
binding of the key). -/
def mapInsert {β : Type} (m : List (String × β)) (k : String) (v : β) :
    List (String × β) :=
  (k, v) :: m.filter (fun p => p.1 ≠ k)

/-- Association-list model of `HashMap::remove`: the value bound to the key,
if any, together with the map with that entry deleted. -/
def mapRemove {β : Type} (m : List (String × β)) (k : String) :
    Option (β × List (String × β)) :=
  match m with
  | [] => none
  | (k', v) :: rest =>
    if k' = k then some (v, rest)
    else match mapRemove rest k with
      | some (v', rest') => some (v', (k', v) :: rest')
      | none => none

/-- `MoreData` (`responses/comment.rs`, used via `more_item.children.join(",")`
and stored in `CommentList.more`): the identities of not-yet-fetched children
of a "more" marker. Fields not read by the embedded code are elided. -/
structure MoreData where
  children : List String
  deriving Repr, DecidableEq

/-- A threaded comment (`structures/comment.rs`): the `name` (full id) and
`parent_id` fields of `CommentData`, plus the nested reply `CommentList`,
of which we keep the `comments` vector (`replies`) and its
`comment_hashes` map (`replyHashes`).  The remaining `CommentData` payload
fields and the nested list's `more`/`link_id`/`parent` fields are opaque to
every operation modelled here and are elided. -/
inductive Comment where
  | mk (name : String) (parent_id : String)
      (replies : List Comment) (replyHashes : List (String × Nat))
  deriving Repr

/-- `Content::name` for `Comment`: the full id. -/
def Comment.name : Comment → String
  | .mk n _ _ _ => n

/-- `Comment::parent`: the full id of the parent. -/
def Comment.parent : Comment → String
  | .mk _ p _ _ => p

/-- The nested reply list of a comment. -/
def Comment.replies : Comment → List Comment
  | .mk _ _ rs _ => rs

/-- `Comment::add_reply`, which forwards to `CommentList::add_reply` of the
nested list: record the new reply's position in the hash map, then push it. -/
def Comment.addReply : Comment → Comment → Comment
  | .mk n p rs hs, item => .mk n p (rs ++ [item]) (mapInsert hs item.name rs.length)

/-- The state of a `CommentList` (`structures/comment_list.rs`): the ready
buffer `comments`, the position index `comment_hashes`, the pending
placeholder groups `more`, and the identities `link_id` and `parent`.  The
`client` reference carries no state used by the embedded operations. -/
structure CommentListState where
  comments : List Comment
  comment_hashes : List (String × Nat)
  more : List MoreData
  link_id : String
  parent : String
  deriving Repr

/-- A raw `BasicThing<Value>` as consumed by `CommentList::new`: the `kind`
tag together with the payload's parse as a comment (`from_value::<CommentData>`
followed by `Comment::new`) and as a `MoreData`.  Carrying both parses models
exactly the payloads for which the source's `from_value(..).unwrap()` calls
succeed; `new` reads only the parse selected by `kind`. -/
structure RawThing where
  kind : String
  asComment : Comment
  asMore : MoreData

/-- The loop body of `CommentList::new`: thread the accumulators
(`new_items`, `new_mores`, `hashes`) through the batch.  A `kind` other than
`"t1"` or `"more"` hits `unreachable!`, modelled as `none`. -/
def newLoop (batch : List RawThing) (items : List Comment)
    (mores : List MoreData) (hashes : List (String × Nat)) :
    Option (List Comment × List MoreData × List (String × Nat)) :=
  match batch with
  | [] => some (items, mores, hashes)
  | item :: rest =>
    if item.kind = "t1" then
      newLoop rest (items ++ [item.asComment]) mores
        (mapInsert hashes item.asComment.name items.length)
    else if item.kind = "more" then
      newLoop rest items (mores ++ [item.asMore]) hashes
    else
      none

/-- `CommentList::new`: partition the batch by `kind` into the comment buffer
and the pending `more` list, building the position index over the comments;
any other kind panics (`unreachable!`). -/
def CommentList.new (link_id parent : String) (comment_list : List RawThing) :
    Option CommentListState :=
  match newLoop comment_list [] [] [] with
  | some (items, mores, hashes) =>
    some { comments := items, comment_hashes := hashes, more := mores,
           link_id := link_id, parent := parent }
  | none => none

/-- `CommentList::add_reply`: record the comment's position in
`comment_hashes`, then push it onto `comments`. -/
def CommentListState.addReply (st : CommentListState) (item : Comment) :
    CommentListState :=
  { st with
    comment_hashes := mapInsert st.comment_hashes item.name st.comments.length,
    comments := st.comments ++ [item] }

/-- The orphan table of `merge_comment`: `HashMap<String, Vec<Comment>>`. -/
def Orphanage : Type := List (String × List Comment)

/-- `CommentList::merge_comment`, totalised by fuel (the Rust recursion
always terminates because each recursive call first removes a key from the
orphanage; `mergeComment` below supplies `orphanage.length + 1` fuel, which
the recursion can never exhaust).  Branches, in source order:
root parent → `add_reply`; parent in `comment_hashes` → attach under that
buffered comment (an out-of-range stored index would be a Rust index panic,
modelled as `none`); an orphanage entry keyed by the *parent* id → attach
its comments under `item` and recurse; otherwise append `item` to the
orphanage under `item`'s *own* name. -/
def mergeCommentFuel : Nat → CommentListState → Comment → Orphanage →
    Option (CommentListState × Orphanage)
  | 0, _, _, _ => none
  | fuel + 1, st, item, orphanage =>
    if item.parent = st.parent then
      some (st.addReply item, orphanage)
    else
      match mapLookup st.comment_hashes item.parent with
      | some pos =>
        if h : pos < st.comments.length then
          some ({ st with comments :=
                    st.comments.set pos ((st.comments.get ⟨pos, h⟩).addReply item) },
                orphanage)
        else
          none
      | none =>
        match mapRemove orphanage item.parent with
        | some (orphaned, rest) =>
          mergeCommentFuel fuel st (orphaned.foldl Comment.addReply item) rest
        | none =>
          match mapRemove orphanage item.name with
          | some (list, rest) => some (st, (item.name, list ++ [item]) :: rest)
          | none => some (st, (item.name, [item]) :: orphanage)

/-- `CommentList::merge_comment` with the fuel bound discharged. -/
def mergeComment (st : CommentListState) (item : Comment) (orphanage : Orphanage) :
    Option (CommentListState × Orphanage) :=
  mergeCommentFuel (orphanage.length + 1) st item orphanage

/-- `CommentList::merge_more_comments`: fold `merge_comment` over the fetched
comments with a fresh orphanage, discarding the orphanage at the end
(unreunited orphans are silently dropped). -/
def mergeMoreComments (st : CommentListState) (newComments : List Comment) :
    Option CommentListState :=
  (newComments.foldlM
    (fun (acc : CommentListState × Orphanage) it => mergeComment acc.1 it acc.2)
    (st, ([] : Orphanage))).map Prod.fst

/-- The outcome of an iterator-style call in this embedding: a returned
value, a Rust panic (carrying the receiver's state at the moment of the
panic — mutations made before the panic are real), or fuel exhaustion (a
modelling artifact standing for a call that is still recursing). -/
inductive CallOutcome (σ : Type) (α : Type) where
  | ok (val : α) (st : σ)
  | panicked (st : σ)
  | fuelOut
  deriving Repr

/-- The result the network oracle reports for one `/api/morechildren`
request in `CommentList::fetch_more`: a successful 2xx response whose parsed
`json.data.things` is `things` (`okThings`), a successful response with no
`data` attribute (`okNoData`), a non-2xx status (`httpError`, which
`fetch_more` returns as `Err(APIError::HTTPError(..))`), or a
transport/deserialization failure on which one of `fetch_more`'s `unwrap`
calls panics (`malformed`). -/
inductive MoreFetchResult where
  | okThings (things : List RawThing)
  | okNoData
  | httpError
  | malformed

/-- The request parameters `fetch_more` builds for a placeholder group:
`format!("api_type=json&raw_json=1&link_id={}&children={}", link_id,
more_item.children.join(","))`. -/
def moreParams (link_id : String) (more_item : MoreData) : String :=
  "api_type=json&raw_json=1&link_id=" ++ link_id ++ "&children=" ++
    String.intercalate "," more_item.children

/-- The outcome of `CommentList::fetch_more`: a panic in one of its
`unwrap` calls, a returned `Err(APIError::HTTPError(..))`, or a returned
`Ok` carrying the freshly parsed listing. -/
inductive FetchMoreOutcome where
  | panicked
  | err
  | ok (new_listing : CommentListState)

/-- `CommentList::fetch_more`: build the `/api/morechildren` request
parameters for the single group `more_item`, issue the request, and on a
2xx response parse `json.data.things` (or the empty batch when `data` is
absent) with `CommentList::new`.  Returns the outcome together with the
parameter string of the one request issued. -/
def fetchMore (fetch : String → MoreFetchResult) (st : CommentListState)
    (more_item : MoreData) : FetchMoreOutcome × String :=
  let params := moreParams st.link_id more_item
  (match fetch params with
   | .malformed => .panicked
   | .httpError => .err
   | .okThings things =>
     match CommentList.new st.link_id st.parent things with
     | some new_listing => .ok new_listing
     | none => .panicked
   | .okNoData =>
     match CommentList.new st.link_id st.parent [] with
     | some new_listing => .ok new_listing
     | none => .panicked,
   params)

/-- `CommentList::next_comment`, totalised by fuel, instrumented with the
list of request parameter strings issued during the call (in order).  The
oracle `fetch` maps the parameters of a request to its result.  Source
behaviour: a non-empty buffer pops its front element; an empty buffer with
no pending groups returns `None`; otherwise the first group is drained from
`more`, `fetch_more` is awaited and its result `unwrap`ped (panicking both
when `fetch_more` panicked and when it returned `Err`), the new listing's
`more` is appended, `comment_hashes` is reset, the new comments are merged,
and the call recurses. -/
def nextComment (fetch : String → MoreFetchResult) :
    Nat → CommentListState →
    CallOutcome CommentListState (Option Comment) × List String
  | 0, _ => (.fuelOut, [])
  | fuel + 1, st =>
    match st.comments with
    | [] =>
      match st.more with
      | [] => (.ok none st, [])
      | more_item :: rest_more =>
        let st1 : CommentListState := { st with more := rest_more }
        match fetchMore fetch st1 more_item with
        | (.panicked, req) => (.panicked st1, [req])
        | (.err, req) => (.panicked st1, [req])
        | (.ok new_listing, req) =>
          let st2 : CommentListState :=
            { st1 with more := st1.more ++ new_listing.more,
                       comment_hashes := [] }
          match mergeMoreComments st2 new_listing.comments with
          | none => (.panicked st2, [req])
          | some st3 =>
            let res := nextComment fetch fuel st3
            (res.1, req :: res.2)
    | child :: rest => (.ok (some child) { st with comments := rest }, [])

/-- A child record of a user-listing page (`responses/listing.rs`,
`UserListingData`): only the `name` field is read by `UserListing::next`. -/
structure UserListingChild where
  name : String
  deriving Repr, DecidableEq

/-- The `data` of a user listing page (`responses/listing.rs`,
`listing::UserListing`): the fields read through `PageListing` plus the
children buffer. -/
structure UserListingData where
  modhash : Option String
  after : Option String
  before : Option String
  children : List UserListingChild
  deriving Repr

/-- The state of a `UserListing` (`structures/user.rs`): the query stem and
the current page data; the `client` reference carries no state used here. -/
structure UserListingState where
  query_stem : String
  data : UserListingData
  deriving Repr

/-- What the network oracle reports for one `get_json` request issued by
`UserListing::fetch_after`: a body that deserializes to a page (`ok`), a
transport failure (`transportErr`, on which `get_json(..).unwrap()` panics),
or a body that fails to deserialize (`deserErr`, on which
`from_str(..).unwrap()` panics). -/
inductive UserFetchResult where
  | ok (d : UserListingData)
  | transportErr
  | deserErr

/-- The URL `UserListing::fetch_after` builds from the cursor:
`format!("{}&after={}", self.query_stem, after_id)`. -/
def afterUrl (query_stem after_id : String) : String :=
  query_stem ++ "&after=" ++ after_id

/-- `<UserListing as Iterator>::next`, totalised by fuel and instrumented
with the list of URLs fetched during the call.  Source behaviour: a
non-empty children buffer pops its front element (wrapped as a `User`, of
which we keep the name); an empty buffer with no `after` cursor returns
`None`; otherwise `fetch_after` builds the URL from the cursor and fetches
(panicking on transport or deserialization errors via `unwrap`), the new
page's children are appended, `after` is replaced by the new page's cursor,
and the call recurses. -/
def userNext (fetch : String → UserFetchResult) :
    Nat → UserListingState →
    CallOutcome UserListingState (Option String) × List String
  | 0, _ => (.fuelOut, [])
  | fuel + 1, st =>
    match st.data.children with
    | [] =>
      match st.data.after with
      | none => (.ok none st, [])
      | some after_id =>
        let url := afterUrl st.query_stem after_id
        match fetch url with
        | .transportErr => (.panicked st, [url])
        | .deserErr => (.panicked st, [url])
        | .ok d =>
          let st1 : UserListingState :=
            { st with data := { st.data with
                children := st.data.children ++ d.children,
                after := d.after } }
          let res := userNext fetch fuel st1
          (res.1, url :: res.2)
    | child :: rest =>
      (.ok (some child.name) { st with data := { st.data with children := rest } },
       [])

mutual

/-- All comment ids (names) occurring in a comment's subtree, the comment
itself included. -/
def Comment.namesList : Comment → List String
  | .mk n _ rs _ => n :: namesOfList rs

/-- All comment ids occurring in a list of comment subtrees. -/
def namesOfList : List Comment → List String
  | [] => []
  | c :: cs => Comment.namesList c ++ namesOfList cs

end

/-- All comment ids held by the orphan table. -/
def orphNames : Orphanage → List String
  | [] => []
  | (_, cs) :: rest => namesOfList cs ++ orphNames rest

/-- All comment ids reachable from the assembler's ready buffer (top-level
comments and every nested child). -/
def stateNames (st : CommentListState) : List String :=
  namesOfList st.comments

/- Concrete instances used by the scenario theorems below. -/

/-- A leaf comment with the given id and parent id. -/
def leafC (n p : String) : Comment := .mk n p [] []

/-- Comment A of the C3 scenario: top-level (parent is the root). -/
def cmtA : Comment := leafC "t1_a" "t3_root"

/-- Comment B of the C3 scenario: a reply to A. -/
def cmtB : Comment := leafC "t1_b" "t1_a"

/-- Comment C of the C3 scenario: top-level (parent is the root). -/
def cmtC : Comment := leafC "t1_c" "t3_root"

/-- A placeholder `MoreData` payload, never read by the `"t1"` branch. -/
def dummyMore : MoreData := ⟨[]⟩

/-- A placeholder comment payload, never read by the `"more"` branch. -/
def dummyComment : Comment := leafC "" ""

/-- A resolved-comment raw thing (kind `"t1"`). -/
def rawT1 (c : Comment) : RawThing := ⟨"t1", c, dummyMore⟩

/-- The C3 scenario batch: `[{id:A, parent:ROOT}, {id:B, parent:A},
{id:C, parent:ROOT}]`, no placeholders. -/
def batchABC : List RawThing := [rawT1 cmtA, rawT1 cmtB, rawT1 cmtC]

/-- An oracle for calls that must not fetch; its responses are irrelevant. -/
def fetchIrrelevant : String → MoreFetchResult := fun _ => .okNoData

/-- The state `CommentList::new` builds from `batchABC`: every `"t1"` item
lands in the ready buffer in input order, regardless of its parent. -/
def stABC : CommentListState :=
  { comments := [cmtA, cmtB, cmtC],
    comment_hashes := [("t1_c", 2), ("t1_b", 1), ("t1_a", 0)],
    more := [], link_id := "t3_link", parent := "t3_root" }

/-- `stABC` after yielding A. -/
def stBC : CommentListState := { stABC with comments := [cmtB, cmtC] }

/-- `stABC` after yielding A and B. -/
def stC : CommentListState := { stABC with comments := [cmtC] }

/-- `stABC` after yielding A, B and C. -/
def stEmptyABC : CommentListState := { stABC with comments := [] }

/-- Parent comment of the reordering scenario (top-level). -/
def cmtP : Comment := leafC "t1_p" "t3_root"

/-- Child comment of the reordering scenario (reply to P). -/
def cmtQ : Comment := leafC "t1_q" "t1_p"

/-- Grandchild comment of the reordering scenario (reply to Q). -/
def cmtG : Comment := leafC "t1_g" "t1_q"

/-- An empty assembler state, as `next_comment` produces it right before
`merge_more_comments` runs (buffer drained, index reset). -/
def stEmptyM : CommentListState :=
  { comments := [], comment_hashes := [], more := [],
    link_id := "t3_link", parent := "t3_root" }

/-- The comment `n` of the C1 counterexample: parent `"t1_x"` is neither the
root parent nor buffered. -/
def cmtN : Comment := leafC "t1_n" "t1_x"

/-- A comment waiting (per the spec's reading) for `cmtN` to arrive. -/
def cmtO : Comment := leafC "t1_o" "t1_n"

/-- An orphan table holding a waiting entry keyed by `cmtN`'s own id. -/
def orphN : Orphanage := [("t1_n", [cmtO])]

/-- The placeholder group of the C4 scenario. -/
def grpXY : MoreData := ⟨["t1_x", "t1_y"]⟩

/-- Assembler state with an empty buffer and the single pending group
`grpXY`. -/
def stPend : CommentListState :=
  { comments := [], comment_hashes := [], more := [grpXY],
    link_id := "t3_link", parent := "t3_root" }

/-- An oracle whose every response is a non-2xx HTTP status. -/
def fetchHttpFail : String → MoreFetchResult := fun _ => .httpError

/-- A user-listing state with an exhausted buffer and a live cursor. -/
def stUserCur : UserListingState :=
  { query_stem := "/user/ex/submitted?raw_json=1",
    data := { modhash := none, after := some "t3_abc", before := none,
              children := [] } }

/-- An oracle whose every response is a transport failure. -/
def fetchTransportFail : String → UserFetchResult := fun _ => .transportErr

/-- An exhausted user-listing state: empty buffer, no cursor. -/
def stUserDone : UserListingState :=
  { query_stem := "/user/ex/submitted?raw_json=1",
    data := { modhash := none, after := none, before := none, children := [] } }

/-- An oracle that always returns a page with zero items and a live
continuation cursor. -/
def fetchEmptyPage : String → UserFetchResult :=
  fun _ => .ok { modhash := none, after := some "t3_abc", before := none,
                 children := [] }

/-! ## Theorems -/

theorem mapRemove_length {β : Type} {m : List (String × β)} {k : String}
    {v : β} {m' : List (String × β)} (h : mapRemove m k = some (v, m')) :
    m'.length + 1 = m.length := by
  induction m generalizing m' with
  | nil => simp [mapRemove] at h
  | cons hd tl ih =>
    unfold mapRemove at h
    by_cases hk : hd.1 = k
    · simp [hk] at h
      simp [← h.2]
    · simp [hk] at h
      cases hrec : mapRemove tl k with
      | none => rw [hrec] at h; simp at h
      | some p =>
        rw [hrec] at h
        simp at h
        have := ih (show mapRemove tl k = some (v, p.2) by rw [hrec, ← h.1])
        simp [← h.2, ← this]

/-- C1, counterexample.  The claim states that when `n`'s parent is neither
the root parent nor indexed, an orphan-table entry keyed by `n`'s *own* id
is removed and its comments are attached under `n` (with `mergeNode`
re-run), and that otherwise `n` is filed under key `n.parentId`.  Concrete
input: `cmtN` (id `"t1_n"`, parent `"t1_x"`), empty buffer and index, orphan
table `[("t1_n", [cmtO])]` — an entry keyed by `n`'s own id.  The code
instead leaves that entry in place and *appends `n` to it*: the result maps
`"t1_n"` to `[cmtO, cmtN]`, no comment is attached under `cmtN` (its reply
list stays empty), the entry keyed by `n.id` is still present, and nothing
is filed under the parent key `"t1_x"`. -/
theorem mergeComment_orphan_key_cex :
    mergeComment stEmptyM cmtN orphN = some (stEmptyM, [("t1_n", [cmtO, cmtN])]) ∧
    mapLookup [("t1_n", [cmtO, cmtN])] cmtN.name = some [cmtO, cmtN] ∧
    mapLookup [("t1_n", [cmtO, cmtN])] cmtN.parent = none ∧
    cmtN.replies = ([] : List Comment) :=
  ⟨rfl, rfl, rfl, rfl⟩

/-- C1, amended: in `merge_comment`, when `n`'s parent is neither the root
parent nor present in the position index, then (a) if the orphan table
contains an entry keyed by `n.parentId` (not `n.id`), every comment in that
entry is attached under `n` in order, the entry is removed, and the merge is
re-run on the augmented `n`; and (b) otherwise `n` is appended to the orphan
table under key `n.id` (not `n.parentId`), creating the list if absent. -/
theorem mergeComment_orphan_branches (st : CommentListState) (item : Comment)
    (orph : Orphanage)
    (hroot : item.parent ≠ st.parent)
    (hidx : mapLookup st.comment_hashes item.parent = none) :
    (∀ orphaned rest, mapRemove orph item.parent = some (orphaned, rest) →
      mergeComment st item orph =
        mergeComment st (orphaned.foldl Comment.addReply item) rest) ∧
    (mapRemove orph item.parent = none →
      (∀ list rest, mapRemove orph item.name = some (list, rest) →
        mergeComment st item orph = some (st, (item.name, list ++ [item]) :: rest)) ∧
      (mapRemove orph item.name = none →
        mergeComment st item orph = some (st, (item.name, [item]) :: orph))) := by
  refine ⟨?_, ?_⟩
  · intro orphaned rest hrem
    have hlen := mapRemove_length hrem
    unfold mergeComment
    rw [← hlen]
    simp [mergeCommentFuel, hroot, hidx, hrem]
  · intro hnone
    refine ⟨?_, ?_⟩
    · intro list rest hrem
      unfold mergeComment
      simp [mergeCommentFuel, hroot, hidx, hnone, hrem]
    · intro hnone2
      unfold mergeComment
      simp [mergeCommentFuel, hroot, hidx, hnone, hnone2]

/-- Witness for `mergeComment_orphan_branches` at a concrete input: merging
`cmtN` into the empty state with an empty orphan table files it under its
own id `"t1_n"`. -/
theorem mergeComment_orphan_branches_witness :
    mergeComment stEmptyM cmtN ([] : Orphanage) =
      some (stEmptyM, (cmtN.name, [cmtN]) :: ([] : Orphanage)) :=
  ((mergeComment_orphan_branches stEmptyM cmtN [] (by decide) rfl).2 rfl).2 rfl

/-- C2, counterexample.  The claim states that merging the batch
[child, grandchild, parent] produces the same tree as merging
[parent, child, grandchild].  With `cmtP` (parent of `cmtQ`, itself parent
of `cmtG`) the parent-first order yields the single top-level comment `P`
with child `Q` attached, while the child-first order yields `P` with *no*
children (`Q` was attached under `G` and both were dropped in the orphan
table): the resulting trees differ. -/
theorem merge_reorder_cex :
    (mergeMoreComments stEmptyM [cmtP, cmtQ, cmtG]).map (fun s => s.comments) =
      some [Comment.mk "t1_p" "t3_root" [cmtQ] [("t1_q", 0)]] ∧
    (mergeMoreComments stEmptyM [cmtQ, cmtG, cmtP]).map (fun s => s.comments) =
      some [cmtP] ∧
    (Comment.mk "t1_p" "t3_root" [cmtQ] [("t1_q", 0)]).replies.length ≠
      cmtP.replies.length :=
  ⟨rfl, rfl, by decide⟩

/-- C2, amended: merge order is *not* immaterial.  For the concrete
three-node chain, merging parent-first attaches the child under the parent
(grandchild orphaned and dropped), while merging child-first leaves the
parent childless (child and grandchild both end up in the discarded orphan
table): a late-arriving parent absorbs none of its previously-orphaned
children, and the two orders yield different trees. -/
theorem merge_order_dependence :
    mergeMoreComments stEmptyM [cmtP, cmtQ, cmtG] =
      some { stEmptyM with
               comments := [Comment.mk "t1_p" "t3_root" [cmtQ] [("t1_q", 0)]],
               comment_hashes := [("t1_p", 0)] } ∧
    mergeMoreComments stEmptyM [cmtQ, cmtG, cmtP] =
      some { stEmptyM with comments := [cmtP], comment_hashes := [("t1_p", 0)] } ∧
    ((mergeMoreComments stEmptyM [cmtP, cmtQ, cmtG]).map
        (fun s => s.comments.map (fun c => c.replies.length)) ≠
      (mergeMoreComments stEmptyM [cmtQ, cmtG, cmtP]).map
        (fun s => s.comments.map (fun c => c.replies.length))) :=
  ⟨rfl, rfl, by decide⟩

/-- C3, counterexample.  The claim states that for the batch
`[A (root), B (parent A), C (root)]` the yield sequence is A then C, with B
attached under A.  In fact `CommentList::new` never inspects parents: all
three land top-level in the buffer in input order, so the *second*
`next_comment` yields B (not C), and A's reply list is empty. -/
theorem flat_batch_second_yield_cex :
    CommentList.new "t3_link" "t3_root" batchABC = some stABC ∧
    (nextComment fetchIrrelevant 1 stABC).1 = .ok (some cmtA) stBC ∧
    (nextComment fetchIrrelevant 1 stBC).1 = .ok (some cmtB) stC ∧
    cmtB.name ≠ cmtC.name ∧
    cmtA.replies = ([] : List Comment) :=
  ⟨rfl, rfl, rfl, by decide, rfl⟩

/-- C3, amended: construction places every `"t1"` item of the batch
top-level in the ready buffer in input order, regardless of its parent;
for the batch `[A, B, C]` the `next_comment` sequence yields A, then B,
then C, then the exhaustion signal (with the exhausted state returned
unchanged), and A's reply list is empty. -/
theorem flat_batch_iteration_order :
    CommentList.new "t3_link" "t3_root" batchABC = some stABC ∧
    stABC.comments = [cmtA, cmtB, cmtC] ∧
    (nextComment fetchIrrelevant 1 stABC).1 = .ok (some cmtA) stBC ∧
    (nextComment fetchIrrelevant 1 stBC).1 = .ok (some cmtB) stC ∧
    (nextComment fetchIrrelevant 1 stC).1 = .ok (some cmtC) stEmptyABC ∧
    nextComment fetchIrrelevant 1 stEmptyABC = (.ok none stEmptyABC, []) ∧
    cmtA.replies = ([] : List Comment) :=
  ⟨rfl, rfl, rfl, rfl, rfl, rfl, rfl⟩

/-- C4, counterexample.  The claim states that a failed group resolution
leaves the group in `pending`, so the next call re-attempts it.  Concrete
input: state with the single pending group `grpXY` and an oracle returning
an HTTP error.  The call drains the group from `more` *before* fetching and
then panics on `unwrap`; at the moment of the panic `more` is empty, and a
subsequent call on that state signals exhaustion without re-attempting
(indeed without issuing) any request. -/
theorem failed_fetch_group_not_pending_cex :
    nextComment fetchHttpFail 1 stPend =
      (.panicked { stPend with more := [] }, [moreParams "t3_link" grpXY]) ∧
    ({ stPend with more := ([] : List MoreData) }).more = [] ∧
    nextComment fetchHttpFail 1 { stPend with more := [] } =
      (.ok none { stPend with more := [] }, []) :=
  ⟨rfl, rfl, rfl⟩

/-- C4, amended: when the buffer is empty and a group is pending,
`next_comment` removes the group from `pending` *before* resolving it; a
resolution failure (HTTP error status or malformed payload) then aborts the
call with a panic — not a typed return — after exactly one request, with the
failed group no longer pending, so it is lost rather than retried. -/
theorem failed_fetch_drops_group (fetch : String → MoreFetchResult)
    (fuel : Nat) (st : CommentListState) (g : MoreData) (rest : List MoreData)
    (hc : st.comments = []) (hm : st.more = g :: rest)
    (hf : fetch (moreParams st.link_id g) = .httpError ∨
          fetch (moreParams st.link_id g) = .malformed) :
    nextComment fetch (fuel + 1) st =
      (.panicked { st with more := rest }, [moreParams st.link_id g]) := by
  cases st with
  | mk comments hashes more link parent =>
    simp only at hc hm
    subst hc
    subst hm
    rcases hf with hf | hf <;>
      simp [nextComment, fetchMore, hf]

/-- Witness for `failed_fetch_drops_group`: the concrete pending state
`stPend` under the always-failing oracle. -/
theorem failed_fetch_drops_group_witness :
    nextComment fetchHttpFail 1 stPend =
      (.panicked { stPend with more := ([] : List MoreData) },
       [moreParams stPend.link_id grpXY]) :=
  failed_fetch_drops_group fetchHttpFail 0 stPend grpXY [] rfl rfl (Or.inl rfl)

/-- C5, counterexample.  The claim states that a transport or
deserialization error during `next()` aborts the call *by returning a typed
error value* to the caller, never by other means.  Concrete input:
`stUserCur` (empty buffer, live cursor) under an oracle that reports a
transport failure.  The call aborts by panicking in
`self.client.get_json(&url, false).unwrap()`: no value of the iterator's
return type — and in particular no typed error value, for which
`Iterator::next`'s `Option<User>` signature has no channel — is returned. -/
theorem userNext_transport_error_cex :
    userNext fetchTransportFail 1 stUserCur =
      (.panicked stUserCur, [afterUrl stUserCur.query_stem "t3_abc"]) :=
  rfl

/-- C5, amended: a transport or deserialization error occurring during a
`next()` fetch aborts the call by a panic (the `unwrap` calls inside
`fetch_after`), not by returning a typed error value; at the moment of the
panic the cursor and the item buffer are exactly as they were before the
call (the panic fires before any state mutation), but the panic propagates
out of `next()` instead of leaving the caller a value to act on. -/
theorem userNext_fetch_error_panics (fetch : String → UserFetchResult)
    (fuel : Nat) (st : UserListingState) (a : String)
    (hc : st.data.children = []) (ha : st.data.after = some a)
    (hf : fetch (afterUrl st.query_stem a) = .transportErr ∨
          fetch (afterUrl st.query_stem a) = .deserErr) :
    userNext fetch (fuel + 1) st = (.panicked st, [afterUrl st.query_stem a]) := by
  cases st with
  | mk stem d =>
    cases d with
    | mk mh af bf ch =>
      simp only at hc ha
      subst hc
      subst ha
      rcases hf with hf | hf <;>
        simp [userNext, hf]

/-- Witness for `userNext_fetch_error_panics`: the concrete cursor state
`stUserCur` under the always-transport-failing oracle. -/
theorem userNext_fetch_error_panics_witness :
    userNext fetchTransportFail 1 stUserCur =
      (.panicked stUserCur, [afterUrl stUserCur.query_stem "t3_abc"]) :=
  userNext_fetch_error_panics fetchTransportFail 0 stUserCur "t3_abc" rfl rfl
    (Or.inl rfl)

/-- C6, counterexample.  The claim states that a single `next()` call
performs at most one retry fetch (so at most two fetches) when pages come
back empty with a live cursor, then signals end-of-sequence.  Concrete
input: `stUserCur` under an oracle that always returns a zero-item page
with a live cursor.  Within fuel 5 the one call issues five fetch requests
and still has not returned: there is no retry cap and no end-of-sequence
signal. -/
theorem userNext_five_fetches_cex :
    (userNext fetchEmptyPage 5 stUserCur).2.length = 5 ∧
    (userNext fetchEmptyPage 5 stUserCur).1 = .fuelOut :=
  ⟨rfl, rfl⟩

/-- C6, amended: when every fetch returns zero items together with a
non-`None` continuation cursor, a single `next()` invocation keeps fetching
without any retry cap: for every fuel bound it issues exactly one request
per unit of fuel and never returns (in particular it never signals
end-of-sequence and never relinquishes the call). -/
theorem userNext_empty_pages_no_retry_cap (fetch : String → UserFetchResult)
    (hf : ∀ u, ∃ d, fetch u = .ok d ∧ d.children = [] ∧ ∃ a, d.after = some a) :
    ∀ (fuel : Nat) (st : UserListingState) (a : String),
      st.data.children = [] → st.data.after = some a →
      (userNext fetch fuel st).1 = .fuelOut ∧
      (userNext fetch fuel st).2.length = fuel := by
  intro fuel
  induction fuel with
  | zero => intro st a _ _; exact ⟨rfl, rfl⟩
  | succ n ih =>
    intro st a hc ha
    obtain ⟨d, hfd, hdc, a', hda⟩ := hf (afterUrl st.query_stem a)
    cases st with
    | mk stem data =>
      cases data with
      | mk mh af bf ch =>
        simp only at hc ha
        subst hc
        subst ha
        have hrec := ih { query_stem := stem,
                          data := { modhash := mh, after := d.after,
                                    before := bf, children := d.children } }
          a' (by simpa using hdc) hda
        simp only [userNext, hfd, List.nil_append]
        exact ⟨hrec.1, by simp [hrec.2]⟩

/-- Witness for `userNext_empty_pages_no_retry_cap`: the always-empty-page
oracle on the concrete cursor state, at fuel 3. -/
theorem userNext_empty_pages_no_retry_cap_witness :
    (userNext fetchEmptyPage 3 stUserCur).1 = .fuelOut ∧
    (userNext fetchEmptyPage 3 stUserCur).2.length = 3 :=
  userNext_empty_pages_no_retry_cap fetchEmptyPage
    (fun _ => ⟨_, rfl, rfl, _, rfl⟩) 3 stUserCur "t3_abc" rfl rfl

/-- C7: once exhausted, both iterators are terminal and pure.  With an empty
buffer and no pending groups, `next_comment` returns the exhaustion signal
with the state unchanged and issues no request, for any oracle and any
(positive) fuel; with an empty children buffer and a `None` cursor,
`UserListing::next` likewise returns the exhaustion signal with the state
unchanged and issues no request.  Since the state is returned unchanged,
every subsequent call behaves identically. -/
theorem exhausted_idempotent (fetch : String → MoreFetchResult)
    (ufetch : String → UserFetchResult) (fuel ufuel : Nat)
    (st : CommentListState) (ust : UserListingState)
    (hc : st.comments = []) (hm : st.more = [])
    (huc : ust.data.children = []) (hua : ust.data.after = none) :
    nextComment fetch (fuel + 1) st = (.ok none st, []) ∧
    userNext ufetch (ufuel + 1) ust = (.ok none ust, []) := by
  constructor
  · cases st with
    | mk comments hashes more link parent =>
      simp only at hc hm
      subst hc
      subst hm
      rfl
  · cases ust with
    | mk stem data =>
      cases data with
      | mk mh af bf ch =>
        simp only at huc hua
        subst huc
        subst hua
        rfl

/-- Witness for `exhausted_idempotent`: the drained comment state
`stEmptyABC` and the exhausted user-listing state `stUserDone`. -/
theorem exhausted_idempotent_witness :
    nextComment fetchIrrelevant 1 stEmptyABC = (.ok none stEmptyABC, []) ∧
    userNext fetchTransportFail 1 stUserDone = (.ok none stUserDone, []) :=
  exhausted_idempotent fetchIrrelevant fetchTransportFail 0 0 stEmptyABC
    stUserDone rfl rfl rfl rfl

theorem newLoop_ok :
    ∀ (batch : List RawThing) (items : List Comment) (mores : List MoreData)
      (hashes : List (String × Nat)),
      (∀ it ∈ batch, it.kind = "t1" ∨ it.kind = "more") →
      ∃ hs, newLoop batch items mores hashes =
        some (items ++ (batch.filter (fun it => it.kind = "t1")).map RawThing.asComment,
              mores ++ (batch.filter (fun it => it.kind = "more")).map RawThing.asMore,
              hs) := by
  intro batch
  induction batch with
  | nil => intro items mores hashes _; exact ⟨hashes, by simp [newLoop]⟩
  | cons hd tl ih =>
    intro items mores hashes hgood
    rcases hgood hd (List.mem_cons_self hd tl) with hk | hk
    · obtain ⟨hs, hrec⟩ := ih (items ++ [hd.asComment]) mores
        (mapInsert hashes hd.asComment.name items.length)
        (fun it hit => hgood it (List.mem_cons_of_mem hd hit))
      refine ⟨hs, ?_⟩
      simp only [newLoop, hk, if_pos rfl]
      rw [hrec]
      have hk2 : hd.kind ≠ "more" := by rw [hk]; decide
      simp [List.filter_cons, hk, hk2]
    · by_cases hk1 : hd.kind = "t1"
      · obtain ⟨hs, hrec⟩ := ih (items ++ [hd.asComment]) mores
          (mapInsert hashes hd.asComment.name items.length)
          (fun it hit => hgood it (List.mem_cons_of_mem hd hit))
        refine ⟨hs, ?_⟩
        simp only [newLoop, hk1, if_pos rfl]
        rw [hrec]
        have hk2 : hd.kind ≠ "more" := by rw [hk1]; decide
        simp [List.filter_cons, hk1, hk2]
      · obtain ⟨hs, hrec⟩ := ih items (mores ++ [hd.asMore]) hashes
          (fun it hit => hgood it (List.mem_cons_of_mem hd hit))
        refine ⟨hs, ?_⟩
        simp only [newLoop, hk1, if_neg hk1, hk, if_pos rfl]
        rw [hrec]
        simp [List.filter_cons, hk, hk1]

theorem newLoop_bad :
    ∀ (batch : List RawThing) (items : List Comment) (mores : List MoreData)
      (hashes : List (String × Nat)),
      (∃ it ∈ batch, ¬(it.kind = "t1" ∨ it.kind = "more")) →
      newLoop batch items mores hashes = none := by
  intro batch
  induction batch with
  | nil => intro _ _ _ h; simp at h
  | cons hd tl ih =>
    intro items mores hashes hbad
    obtain ⟨it, hit, hk⟩ := hbad
    push_neg at hk
    rcases List.mem_cons.mp hit with heq | hmem
    · subst heq
      simp [newLoop, hk.1, hk.2]
    · by_cases hk1 : hd.kind = "t1"
      · simp only [newLoop, hk1, if_pos rfl]
        exact ih _ _ _ ⟨it, hmem, by tauto⟩
      · by_cases hk2 : hd.kind = "more"
        · simp only [newLoop, hk1, if_neg hk1, hk2, if_pos rfl]
          exact ih _ _ _ ⟨it, hmem, by tauto⟩
        · simp [newLoop, hk1, hk2]

/-- C10: `CommentList::new` reaches `unreachable!` (a panic) exactly when
the batch contains an item whose kind is neither `"t1"` nor `"more"`; on a
batch of only `"t1"` and `"more"` items it returns normally, with the
comment buffer holding the `"t1"` payloads and the pending list holding the
`"more"` payloads, each in input order. -/
theorem commentList_new_partition (link parent : String)
    (batch : List RawThing) :
    ((∀ it ∈ batch, it.kind = "t1" ∨ it.kind = "more") →
      ∃ hs, CommentList.new link parent batch =
        some { comments := (batch.filter (fun it => it.kind = "t1")).map RawThing.asComment,
               comment_hashes := hs,
               more := (batch.filter (fun it => it.kind = "more")).map RawThing.asMore,
               link_id := link, parent := parent }) ∧
    ((∃ it ∈ batch, ¬(it.kind = "t1" ∨ it.kind = "more")) →
      CommentList.new link parent batch = none) := by
  constructor
  · intro hgood
    obtain ⟨hs, hloop⟩ := newLoop_ok batch [] [] [] hgood
    exact ⟨hs, by simp [CommentList.new, hloop]⟩
  · intro hbad
    simp [CommentList.new, newLoop_bad batch [] [] [] hbad]

/-- Witness for `commentList_new_partition`: the all-`"t1"` batch `batchABC`
returns normally with all three comments buffered in order, while a batch
holding a `"t2"` item panics. -/
theorem commentList_new_partition_witness :
    (∃ hs, CommentList.new "t3_link" "t3_root" batchABC =
      some { comments := [cmtA, cmtB, cmtC], comment_hashes := hs,
             more := [], link_id := "t3_link", parent := "t3_root" }) ∧
    CommentList.new "t3_link" "t3_root"
      [{ kind := "t2", asComment := dummyComment, asMore := dummyMore }] = none :=
  ⟨(commentList_new_partition "t3_link" "t3_root" batchABC).1
      (by intro it hit; fin_cases hit <;> simp [rawT1]),
   (commentList_new_partition "t3_link" "t3_root" _).2
      ⟨_, List.mem_singleton.mpr rfl, by simp⟩⟩

theorem mergeCommentFuel_fields :
    ∀ (fuel : Nat) (st : CommentListState) (item : Comment) (orph : Orphanage)
      (st' : CommentListState) (orph' : Orphanage),
      mergeCommentFuel fuel st item orph = some (st', orph') →
      st'.link_id = st.link_id ∧ st'.parent = st.parent := by
  intro fuel
  induction fuel with
  | zero => intro st item orph st' orph' h; simp [mergeCommentFuel] at h
  | succ n ih =>
    intro st item orph st' orph' h
    simp only [mergeCommentFuel] at h
    split at h
    · simp at h
      rw [← h.1]
      exact ⟨rfl, rfl⟩
    · split at h
      · split at h
        · simp at h
          rw [← h.1]
          exact ⟨rfl, rfl⟩
        · simp at h
      · split at h
        · exact ih st _ _ st' orph' h
        · split at h <;> (simp at h; rw [← h.1]; exact ⟨rfl, rfl⟩)

theorem mergeComment_fields {st : CommentListState} {item : Comment}
    {orph : Orphanage} {st' : CommentListState} {orph' : Orphanage}
    (h : mergeComment st item orph = some (st', orph')) :
    st'.link_id = st.link_id ∧ st'.parent = st.parent :=
  mergeCommentFuel_fields (orph.length + 1) st item orph st' orph' h

theorem mergeFold_fields :
    ∀ (items : List Comment) (acc : CommentListState × Orphanage)
      (res : CommentListState × Orphanage),
      items.foldlM (fun acc it => mergeComment acc.1 it acc.2) acc = some res →
      res.1.link_id = acc.1.link_id ∧ res.1.parent = acc.1.parent := by
  intro items
  induction items with
  | nil =>
    intro acc res h
    simp [List.foldlM] at h
    rw [← h]
    exact ⟨rfl, rfl⟩
  | cons hd tl ih =>
    intro acc res h
    rw [List.foldlM_cons] at h
    cases hmid : mergeComment acc.1 hd acc.2 with
    | none => rw [hmid] at h; simp at h
    | some mid =>
      rw [hmid] at h
      simp at h
      have h1 := mergeComment_fields hmid
      have h2 := ih mid res h
      exact ⟨h2.1.trans h1.1, h2.2.trans h1.2⟩

theorem mergeMoreComments_fields {st : CommentListState}
    {items : List Comment} {st' : CommentListState}
    (h : mergeMoreComments st items = some st') :
    st'.link_id = st.link_id ∧ st'.parent = st.parent := by
  unfold mergeMoreComments at h
  cases hfold : items.foldlM
      (fun (acc : CommentListState × Orphanage) it => mergeComment acc.1 it acc.2)
      (st, ([] : Orphanage)) with
  | none => rw [hfold] at h; simp at h
  | some res =>
    rw [hfold] at h
    simp at h
    have := mergeFold_fields items (st, []) res hfold
    rw [← h]
    exact this

theorem nextComment_log (fetch : String → MoreFetchResult) :
    ∀ (fuel : Nat) (st : CommentListState) (r : String),
      r ∈ (nextComment fetch fuel st).2 →
      ∃ g, r = moreParams st.link_id g := by
  intro fuel
  induction fuel with
  | zero => intro st r hr; simp [nextComment] at hr
  | succ n ih =>
    intro st r hr
    cases st with
    | mk comments hashes more link parent =>
      cases comments with
      | cons c cs => simp [nextComment] at hr
      | nil =>
        cases more with
        | nil => simp [nextComment] at hr
        | cons g gs =>
          rcases hf : fetch (moreParams link g) with things | _ | _ | _
          · rcases hnew : CommentList.new link parent things with _ | nl
            · simp [nextComment, fetchMore, hf, hnew] at hr
              exact ⟨g, by simp [hr]⟩
            · rcases hm : mergeMoreComments
                  { comments := [], comment_hashes := [], more := gs ++ nl.more,
                    link_id := link, parent := parent } nl.comments with _ | st3
              · simp [nextComment, fetchMore, hf, hnew, hm] at hr
                exact ⟨g, by simp [hr]⟩
              · simp only [nextComment, fetchMore, hf, hnew, hm,
                  List.mem_cons] at hr
                rcases hr with hr | hr
                · exact ⟨g, hr⟩
                · obtain ⟨g', hg'⟩ := ih st3 r hr
                  have hlink := (mergeMoreComments_fields hm).1
                  simp only at hlink
                  exact ⟨g', by rw [hg', hlink]⟩
          · -- `okNoData`: the empty batch parses to the empty listing.
            simp only [nextComment, fetchMore, hf, CommentList.new, newLoop,
              mergeMoreComments, List.foldlM, Option.map, List.mem_cons,
              List.append_nil] at hr
            rcases hr with hr | hr
            · exact ⟨g, hr⟩
            · obtain ⟨g', hg'⟩ := ih _ r hr
              exact ⟨g', hg'⟩
          · simp [nextComment, fetchMore, hf] at hr
            exact ⟨g, by simp [hr]⟩
          · simp [nextComment, fetchMore, hf] at hr
            exact ⟨g, by simp [hr]⟩

/-- C9: when the buffer is empty and a group is pending, the expansion step
of `next_comment` issues as its (single) first request exactly the
`/api/morechildren` request for the first pending group, with parameters
built from the owning link's id and that one group's comma-joined child
identities; and every request issued anywhere during the call carries the
parameters of exactly one group (requests for distinct `PlaceholderGroup`s
are never batched together). -/
theorem one_request_per_expansion (fetch : String → MoreFetchResult)
    (fuel : Nat) (st : CommentListState) (g : MoreData) (gs : List MoreData)
    (hc : st.comments = []) (hm : st.more = g :: gs) :
    (nextComment fetch (fuel + 1) st).2.take 1 = [moreParams st.link_id g] ∧
    ∀ r ∈ (nextComment fetch (fuel + 1) st).2,
      ∃ g', r = moreParams st.link_id g' := by
  refine ⟨?_, fun r hr => nextComment_log fetch (fuel + 1) st r hr⟩
  cases st with
  | mk comments hashes more link parent =>
    simp only at hc hm
    subst hc
    subst hm
    rcases hf : fetch (moreParams link g) with things | _ | _ | _
    · rcases hnew : CommentList.new link parent things with _ | nl
      · simp [nextComment, fetchMore, hf, hnew]
      · rcases hmm : mergeMoreComments
            { comments := [], comment_hashes := [], more := gs ++ nl.more,
              link_id := link, parent := parent } nl.comments with _ | st3
        · simp [nextComment, fetchMore, hf, hnew, hmm]
        · simp [nextComment, fetchMore, hf, hnew, hmm]
    · simp [nextComment, fetchMore, hf, CommentList.new, newLoop,
        mergeMoreComments, List.foldlM, Option.map]
    · simp [nextComment, fetchMore, hf]
    · simp [nextComment, fetchMore, hf]

/-- Witness for `one_request_per_expansion`: the concrete pending state
`stPend` under the failing oracle issues exactly the request for `grpXY`. -/
theorem one_request_per_expansion_witness :
    (nextComment fetchHttpFail 1 stPend).2.take 1 =
      [moreParams stPend.link_id grpXY] ∧
    ∀ r ∈ (nextComment fetchHttpFail 1 stPend).2,
      ∃ g', r = moreParams stPend.link_id g' :=
  one_request_per_expansion fetchHttpFail 0 stPend grpXY [] rfl rfl


theorem namesOfList_append : ∀ (l₁ l₂ : List Comment),
    namesOfList (l₁ ++ l₂) = namesOfList l₁ ++ namesOfList l₂ := by
  intro l₁ l₂
  induction l₁ with
  | nil => simp [namesOfList]
  | cons c cs ih => simp [namesOfList, ih]

theorem namesList_addReply (c item : Comment) :
    (c.addReply item).namesList = c.namesList ++ item.namesList := by
  cases c with
  | mk n p rs hs =>
    simp [Comment.addReply, Comment.namesList, namesOfList_append, namesOfList]

theorem namesList_foldl : ∀ (orphaned : List Comment) (item : Comment),
    (orphaned.foldl Comment.addReply item).namesList =
      item.namesList ++ namesOfList orphaned := by
  intro orphaned
  induction orphaned with
  | nil => intro item; simp [namesOfList]
  | cons o os ih =>
    intro item
    simp [List.foldl_cons, ih, namesList_addReply, namesOfList]

theorem namesOfList_set : ∀ (l : List Comment) (pos : Nat) (h : pos < l.length)
    (item : Comment),
    (↑(namesOfList (l.set pos (l[pos].addReply item))) : Multiset String) =
      ↑(namesOfList l) + ↑item.namesList := by
  intro l
  induction l with
  | nil => intro pos h; simp at h
  | cons c cs ih =>
    intro pos h item
    cases pos with
    | zero =>
      simp only [List.set, List.getElem_cons_zero, namesOfList, namesList_addReply]
      simp only [← Multiset.coe_add, List.append_assoc]
      abel
    | succ m =>
      have hm : m < cs.length := by simpa using h
      simp only [List.set, List.getElem_cons_succ, namesOfList]
      simp only [← Multiset.coe_add]
      rw [ih m hm item]
      abel

theorem orphNames_mapRemove : ∀ (orph : Orphanage) (k : String)
    (cs : List Comment) (rest : Orphanage),
    mapRemove orph k = some (cs, rest) →
    (↑(orphNames orph) : Multiset String) = ↑(namesOfList cs) + ↑(orphNames rest) := by
  intro orph
  induction orph with
  | nil => intro k cs rest h; simp [mapRemove] at h
  | cons hd tl ih =>
    intro k cs rest h
    obtain ⟨k', v⟩ := hd
    simp only [mapRemove] at h
    by_cases hk : k' = k
    · rw [if_pos hk] at h
      simp only [Option.some.injEq, Prod.mk.injEq] at h
      obtain ⟨h1, h2⟩ := h
      subst h1
      subst h2
      simp [orphNames]
    · rw [if_neg hk] at h
      cases hrec : mapRemove tl k with
      | none => rw [hrec] at h; simp at h
      | some p =>
        obtain ⟨q1, q2⟩ := p
        rw [hrec] at h
        simp only [Option.some.injEq, Prod.mk.injEq] at h
        obtain ⟨h1, h2⟩ := h
        subst h1
        subst h2
        have hih := ih k q1 q2 hrec
        simp only [orphNames]
        simp only [← Multiset.coe_add, hih]
        abel

theorem mergeCommentFuel_names :
    ∀ (fuel : Nat) (st : CommentListState) (item : Comment) (orph : Orphanage)
      (st' : CommentListState) (orph' : Orphanage),
      mergeCommentFuel fuel st item orph = some (st', orph') →
      (↑(stateNames st' ++ orphNames orph') : Multiset String) =
        ↑item.namesList + ↑(stateNames st ++ orphNames orph) := by
  intro fuel
  induction fuel with
  | zero => intro st item orph st' orph' h; simp [mergeCommentFuel] at h
  | succ n ih =>
    intro st item orph st' orph' h
    simp only [mergeCommentFuel] at h
    split at h
    · simp at h
      obtain ⟨h1, h2⟩ := h
      subst h2
      rw [← h1]
      simp only [CommentListState.addReply, stateNames, namesOfList_append,
        namesOfList]
      simp only [← Multiset.coe_add]
      abel
    · split at h
      · rename_i pos hpos
        split at h
        · rename_i hlt
          simp at h
          obtain ⟨h1, h2⟩ := h
          subst h2
          rw [← h1]
          simp only [stateNames]
          simp only [← Multiset.coe_add]
          rw [namesOfList_set st.comments pos hlt item]
          abel
        · simp at h
      · split at h
        · rename_i orphaned rest hrem
          have hIH := ih st (orphaned.foldl Comment.addReply item) rest st' orph' h
          rw [hIH, namesList_foldl]
          have horph := orphNames_mapRemove orph _ orphaned rest hrem
          simp only [← Multiset.coe_add, horph]
          abel
        · rename_i hnone
          split at h
          · rename_i list rest hrem
            simp at h
            obtain ⟨h1, h2⟩ := h
            subst h1
            subst h2
            have horph := orphNames_mapRemove orph _ list rest hrem
            simp only [stateNames, orphNames, namesOfList_append, namesOfList]
            simp only [← Multiset.coe_add, horph]
            abel
          · simp at h
            obtain ⟨h1, h2⟩ := h
            subst h1
            subst h2
            simp only [stateNames, orphNames, namesOfList_append, namesOfList]
            simp only [← Multiset.coe_add]
            abel

/-- C8: the merge step conserves comments exactly.  For every successful
`merge_comment` step, the multiset of comment ids reachable from the ready
buffer (top-level comments and all nested children) together with those
held in the orphan table equals the pre-step multiset plus the ids of the
merged comment's subtree: the comment lands in exactly one of
{ready buffer, some placed comment's children, orphan table}, nothing is
duplicated and nothing is lost.  Likewise `add_reply` places a comment
exactly once, at the end of the ready buffer. -/
theorem mergeComment_names_preserved :
    (∀ (st : CommentListState) (item : Comment) (orph : Orphanage)
       (st' : CommentListState) (orph' : Orphanage),
       mergeComment st item orph = some (st', orph') →
       (↑(stateNames st' ++ orphNames orph') : Multiset String) =
         ↑item.namesList + ↑(stateNames st ++ orphNames orph)) ∧
    (∀ (st : CommentListState) (item : Comment),
       stateNames (st.addReply item) = stateNames st ++ item.namesList) := by
  constructor
  · intro st item orph st' orph' h
    exact mergeCommentFuel_names (orph.length + 1) st item orph st' orph' h
  · intro st item
    simp [CommentListState.addReply, stateNames, namesOfList_append, namesOfList]

/-- Witness for `mergeComment_names_preserved`: the concrete merge of `cmtN`
into the empty state with orphan table `orphN`. -/
theorem mergeComment_names_preserved_witness :
    (↑(stateNames stEmptyM ++ orphNames [("t1_n", [cmtO, cmtN])]) : Multiset String) =
      ↑cmtN.namesList + ↑(stateNames stEmptyM ++ orphNames orphN) :=
  mergeComment_names_preserved.1 stEmptyM cmtN orphN stEmptyM
    [("t1_n", [cmtO, cmtN])] rfl

end NewRawr
